import Mathlib

/-!
Shallow embedding of the erm sphere-tracing renderer.

The Rust source is generic over a component type (scalar f32 or the 8-wide
f32x8 lane group).  We mirror that genericity: definitions are parametric
over a linear ordered field K, with the square-root and power functions of
the component type passed explicitly (the geometry theorems instantiate
the square root with Real.sqrt, the executable witnesses use rational
stand-ins).  Floating-point literals of the source are embedded as the
exact rationals they denote in the algorithm text (0.87, 0.6, 0.001), and
f32::MAX as its exact value 2^128 - 2^104.  IEEE rounding and non-finite
values (inf, NaN) are outside this exact-field model.
-/

namespace Erm

variable {K : Type} [LinearOrderedField K]

/-- Source src/vector/f32/vec3.rs: a 3D vector of components. -/
structure Vec3 (K : Type) where
  x : K
  y : K
  z : K

/-- Source src/vector/f32/vec2.rs: a 2D vector of components. -/
structure Vec2 (K : Type) where
  x : K
  y : K

namespace Vec3

/-- Vec3::splat. -/
def splat (v : K) : Vec3 K := ⟨v, v, v⟩

/-- Vec3::ZERO. -/
def ZERO : Vec3 K := splat 0

/-- Vec3::ONE. -/
def ONE : Vec3 K := splat 1

/-- Componentwise addition (impl Add of Vec3 for Vec3). -/
def add (a b : Vec3 K) : Vec3 K := ⟨a.x + b.x, a.y + b.y, a.z + b.z⟩

/-- Componentwise subtraction (impl Sub of Vec3 for Vec3). -/
def sub (a b : Vec3 K) : Vec3 K := ⟨a.x - b.x, a.y - b.y, a.z - b.z⟩

/-- Componentwise multiplication (impl Mul of Vec3 for Vec3). -/
def mulV (a b : Vec3 K) : Vec3 K := ⟨a.x * b.x, a.y * b.y, a.z * b.z⟩

/-- Vector times scalar (impl Mul of f32 for Vec3). -/
def mulS (a : Vec3 K) (c : K) : Vec3 K := ⟨a.x * c, a.y * c, a.z * c⟩

/-- Vector divided by scalar (impl Div of f32 for Vec3). -/
def divS (a : Vec3 K) (c : K) : Vec3 K := ⟨a.x / c, a.y / c, a.z / c⟩

/-- Componentwise negation (impl Neg for Vec3). -/
def neg (a : Vec3 K) : Vec3 K := ⟨-a.x, -a.y, -a.z⟩

/-- Vec3::dot. -/
def dot (a b : Vec3 K) : K := a.x * b.x + a.y * b.y + a.z * b.z

/-- Vec3::length_sq. -/
def length_sq (a : Vec3 K) : K := dot a a

/-- Vec3::length, with the component square root passed explicitly. -/
def length (sqrt : K → K) (a : Vec3 K) : K := sqrt (length_sq a)

/-- Vec3::length_recip. -/
def length_recip (sqrt : K → K) (a : Vec3 K) : K := (length sqrt a)⁻¹

/-- Vec3::normalise: scale by the reciprocal of the length. -/
def normalise (sqrt : K → K) (a : Vec3 K) : Vec3 K := mulS a (length_recip sqrt a)

/-- Vec3::mul_add, componentwise fused multiply-add (exact in the field model). -/
def mul_add (a m b : Vec3 K) : Vec3 K :=
  ⟨a.x * m.x + b.x, a.y * m.y + b.y, a.z * m.z + b.z⟩

/-- Vec3::abs. -/
def vabs (a : Vec3 K) : Vec3 K := ⟨|a.x|, |a.y|, |a.z|⟩

/-- Vec3::min, componentwise. -/
def vmin (a b : Vec3 K) : Vec3 K := ⟨min a.x b.x, min a.y b.y, min a.z b.z⟩

/-- Vec3::max, componentwise. -/
def vmax (a b : Vec3 K) : Vec3 K := ⟨max a.x b.x, max a.y b.y, max a.z b.z⟩

/-- Vec3::min_element. -/
def min_element (a : Vec3 K) : K := min a.x (min a.y a.z)

/-- Vec3::max_element. -/
def max_element (a : Vec3 K) : K := max a.x (max a.y a.z)

/-- Vec3::powf, componentwise, with the component power function passed explicitly. -/
def powfV (powf : K → K → K) (a : Vec3 K) (e : K) : Vec3 K :=
  ⟨powf a.x e, powf a.y e, powf a.z e⟩

end Vec3

namespace Vec2

/-- Vec2 scaled by a scalar (impl Mul of f32 for Vec2). -/
def mulS (a : Vec2 K) (c : K) : Vec2 K := ⟨a.x * c, a.y * c⟩

/-- Componentwise subtraction (impl Sub of Vec2 for Vec2). -/
def sub (a b : Vec2 K) : Vec2 K := ⟨a.x - b.x, a.y - b.y⟩

/-- Vec2 divided by a scalar (impl Div of f32 for Vec2). -/
def divS (a : Vec2 K) (c : K) : Vec2 K := ⟨a.x / c, a.y / c⟩

/-- Vec2::min_element. -/
def min_element (a : Vec2 K) : K := min a.x a.y

end Vec2

/-- Source src/ray.rs: a ray with an origin and a direction. -/
structure Ray (K : Type) where
  origin : Vec3 K
  dir : Vec3 K

namespace Ray

/-- Ray::new normalises the direction at construction. -/
def new (sqrt : K → K) (origin dir : Vec3 K) : Ray K :=
  ⟨origin, dir.normalise sqrt⟩

/-- Ray::at: origin + t * dir, computed with mul_add as in the source
(at is a reserved word in Lean, hence the name atT). -/
def atT (r : Ray K) (t : K) : Vec3 K :=
  (Vec3.splat t).mul_add r.dir r.origin

end Ray

/-- Source src/march.rs: the result of a trace. -/
structure Trace (D H : Type) where
  distance : D
  hit : H

/-- march::EPSILON, the precision of the marching algorithms (0.001). -/
def EPSILON : K := 1 / 1000

/-- march::MAX_STEPS, the step budget. -/
def MAX_STEPS : ℕ := 64

/-- march::MAX_DIST is f32::MAX, whose exact value is 2^128 - 2^104. -/
def MAX_DIST : K := 2 ^ 128 - 2 ^ 104

namespace f32

/-- Loop body of the scalar trace (impl Traceable for f32), with the four
mutable locals rp, rc, di, t of the source turned into parameters and the
remaining step budget as fuel.  Each iteration computes the relaxed overstep,
falls back to the conservative step when the overstep was unsafe, advances t,
and returns as soon as the hit tolerance is met. -/
def traceLoop (map : Vec3 K → K) (ray : Ray K) (w : K) :
    ℕ → K → K → K → K → Trace K Bool
  | 0, _, _, _, _ => ⟨MAX_DIST, false⟩
  | n + 1, rp, rc, di, t =>
    let di1 := rc + w * rc * max ((di - rp + rc) / (di + rp - rc)) (3 / 5)
    let rn1 := map (ray.atT (t + di1))
    let di2 := if di1 > rc + rn1 then rc else di1
    let rn2 := if di1 > rc + rn1 then map (ray.atT (t + rc)) else rn1
    let t2 := t + di2
    if rn2 < t2 * EPSILON then ⟨t2, true⟩
    else traceLoop map ray w n rc rn2 di2 t2

/-- The scalar enhanced sphere-tracing algorithm (impl Traceable for f32::trace):
w defaults to 0.87, and the state starts at rp = 0, rc = 1, di = 0, t = 0. -/
def trace (map : Vec3 K → K) (ray : Ray K) (w : Option K) : Trace K Bool :=
  traceLoop map ray (w.getD (87 / 100)) MAX_STEPS 0 1 0 0

end f32

/-- State of the enhanced adaptive algorithm as the spec describes it:
previous and current step radii, overstep distance, accumulated distance. -/
structure SpecState (K : Type) where
  rp : K
  rc : K
  di : K
  t : K

/-- Modelled from the spec's description of one iteration of the enhanced
adaptive algorithm: compute the candidate overstep with relaxation factor w,
evaluate the map, fall back to the conservative step when the overstep was
unsafe, advance t, report whether the relative hit tolerance is met, and
shift the radii.  Used only to compare against the source translation. -/
def specIter (map : Vec3 K → K) (ray : Ray K) (w : K) (s : SpecState K) :
    SpecState K × Bool :=
  let di := s.rc + w * s.rc * max (3 / 5) ((s.di - s.rp + s.rc) / (s.di + s.rp - s.rc))
  let unsafeStep := decide (di > s.rc + map (ray.atT (s.t + di)))
  let di2 := if unsafeStep then s.rc else di
  let rn := if unsafeStep then map (ray.atT (s.t + s.rc)) else map (ray.atT (s.t + di))
  let t := s.t + di2
  (⟨s.rc, rn, di2, t⟩, decide (rn < t * (1 / 1000)))

/-- Modelled from the spec: run at most the given number of iterations,
returning the accumulated distance with hit = true as soon as an iteration
meets the tolerance, and the sentinel f32::MAX with hit = false if every
iteration passes without a hit. -/
def specLoop (map : Vec3 K → K) (ray : Ray K) (w : K) : ℕ → SpecState K → Trace K Bool
  | 0, _ => ⟨MAX_DIST, false⟩
  | n + 1, s =>
    let p := specIter map ray w s
    if p.2 then ⟨p.1.t, true⟩ else specLoop map ray w n p.1

/-- Modelled from the spec: the enhanced adaptive sphere-tracing algorithm,
64 iterations starting from rp = 0, rc = 1, di = 0, t = 0. -/
def specScalarTrace (map : Vec3 K → K) (ray : Ray K) (w : K) : Trace K Bool :=
  specLoop map ray w 64 ⟨0, 1, 0, 0⟩

/-- Lane group: f32x8 is modelled as 8 independent field values. -/
def Lanes (K : Type) : Type := Fin 8 → K

/-- mask32x8 is modelled as 8 booleans. -/
def Mask8 : Type := Fin 8 → Bool

/-- Source src/vector/f32x8/vec3.rs: a 3D vector of 8-wide lane groups,
kept in structure-of-arrays form. -/
structure Vec3x8 (K : Type) where
  x : Lanes K
  y : Lanes K
  z : Lanes K

/-- Ray<f32x8>: an 8-lane ray. -/
structure Ray8 (K : Type) where
  origin : Vec3x8 K
  dir : Vec3x8 K

/-- Ray::at for the 8-lane instantiation: per-lane origin + t * dir
(the source's mul_add, exact in the field model). -/
def Ray8.atT (r : Ray8 K) (t : Lanes K) : Vec3x8 K :=
  ⟨fun i => t i * r.dir.x i + r.origin.x i,
   fun i => t i * r.dir.y i + r.origin.y i,
   fun i => t i * r.dir.z i + r.origin.z i⟩

/-- mask32x8::all: every lane of the mask is set. -/
def Mask8.all (m : Mask8) : Bool :=
  m 0 && m 1 && m 2 && m 3 && m 4 && m 5 && m 6 && m 7

/-- Mask::select, per lane. -/
def Mask8.select (m : Mask8) (tv fv : Lanes K) : Lanes K :=
  fun i => if m i then tv i else fv i

namespace f32x8

/-- Per-lane hit mask of one iteration of the vectorized trace:
h.simd_lt(EPSILON * t) where h = map(ray.at(t)). -/
def hitMask (map : Vec3x8 K → Lanes K) (ray : Ray8 K) (t : Lanes K) : Mask8 :=
  fun i => decide (map (ray.atT t) i < EPSILON * t i)

/-- Per-lane finished mask: hit this step, or travelled beyond MAX_DIST
(hit | t.simd_gt(MAX_DIST)). -/
def finishedMask (map : Vec3x8 K → Lanes K) (ray : Ray8 K) (t : Lanes K) : Mask8 :=
  fun i => hitMask map ray t i || decide (t i > MAX_DIST)

/-- One update of the accumulated distances: add the step distance to
unfinished lanes, freeze finished lanes (finished.select(splat 0, h)). -/
def stepT (map : Vec3x8 K → Lanes K) (ray : Ray8 K) (t : Lanes K) : Lanes K :=
  fun i => t i + (Mask8.select (finishedMask map ray t) (fun _ => 0) (map (ray.atT t))) i

/-- Loop of the vectorized lock-step trace (impl Traceable for f32x8), with
the mutable t and hit of the source as parameters and the remaining step
budget as fuel.  The loop breaks early only when every lane is finished, and
when the budget runs out it returns the accumulated t and the last hit mask. -/
def traceLoop (map : Vec3x8 K → Lanes K) (ray : Ray8 K) :
    ℕ → Lanes K → Mask8 → Trace (Lanes K) Mask8
  | 0, t, hit => ⟨t, hit⟩
  | n + 1, t, _ =>
    if Mask8.all (finishedMask map ray t) then ⟨t, hitMask map ray t⟩
    else traceLoop map ray n (stepT map ray t) (hitMask map ray t)

/-- The vectorized trace (impl Traceable for f32x8::trace): w is ignored,
t starts at 0 in every lane and the hit mask starts all false. -/
def trace (map : Vec3x8 K → Lanes K) (ray : Ray8 K) (_w : Option (Lanes K)) :
    Trace (Lanes K) Mask8 :=
  traceLoop map ray MAX_STEPS (fun _ => 0) (fun _ => false)

end f32x8

/-- Source src/sdf.rs: the closed set of SDF nodes (Sphere, Box, Translate,
Union). -/
inductive SdfNode (K : Type) where
  | Sphere (radius : K)
  | Box (half : Vec3 K)
  | Translate (child : SdfNode K) (pos : Vec3 K)
  | Union (a b : SdfNode K)

/-- The signed distance function of each node, from the four impl Sdf blocks
of src/sdf.rs: Sphere is length minus radius, Box is the exact box SDF,
Translate shifts the query point, Union takes the minimum of its children. -/
def SdfNode.dist (sqrt : K → K) : SdfNode K → Vec3 K → K
  | .Sphere r, p => p.length sqrt - r
  | .Box half, p =>
    let q := (p.vabs).sub half
    (q.vmax Vec3.ZERO).length sqrt + min q.max_element 0
  | .Translate c pos, p => SdfNode.dist sqrt c (p.sub pos)
  | .Union a b, p => min (SdfNode.dist sqrt a p) (SdfNode.dist sqrt b p)

/-- The camera ray the render pipeline builds for a pixel position: screen UV
from position and resolution, direction through (uv.x, uv.y, -2), normalised
by the Ray constructor (main.rs render, ray generation). -/
def pipelineRay (sqrt : K → K) (origin : Vec3 K) (res pos : Vec2 K) : Ray K :=
  let uv := ((pos.mulS 2).sub res).divS (-res.min_element)
  Ray.new sqrt origin ⟨uv.x, uv.y, -2⟩

/-- main.rs conv: (x * u8::MAX as f32) as u8.  A Rust float-to-integer as
cast truncates toward zero and saturates to the integer type's range, so the
result is 0 for negative products and is capped at 255 above. -/
def conv (x : ℚ) : ℤ :=
  if x * 255 < 0 then 0 else min 255 ⌊x * 255⌋

/-- main.rs flatten: a vector of arrays of T laid out back to back, in order.
Arrays of length N are modelled as functions from Fin N. -/
def flatten {T : Type} (N : ℕ) (v : List (Fin N → T)) : List T :=
  (v.map (fun a => (List.finRange N).map a)).flatten

/-- impl ImageBytes for Vec of Vec3 (main.rs bytes): each pixel becomes the
array of its three converted channels, and the arrays are flattened in pixel
order. -/
def bytes (v : List (Vec3 ℚ)) : List ℤ :=
  flatten 3 (v.map (fun c => ![conv c.x, conv c.y, conv c.z]))

/-! Helper lemmas shared by the claim theorems. -/

/-- Unfolding equation of the vectorized loop at positive fuel. -/
theorem traceLoop8_succ (map : Vec3x8 K → Lanes K) (ray : Ray8 K) (n : ℕ)
    (t : Lanes K) (hit : Mask8) :
    f32x8.traceLoop map ray (n + 1) t hit =
      if Mask8.all (f32x8.finishedMask map ray t) then ⟨t, f32x8.hitMask map ray t⟩
      else f32x8.traceLoop map ray n (f32x8.stepT map ray t) (f32x8.hitMask map ray t) := by
  rfl

/-- A sum of three squares is positive when the vector is not the zero vector. -/
theorem length_sq_pos (d : Vec3 ℝ) (hd : d ≠ ⟨0, 0, 0⟩) : 0 < d.length_sq := by
  have he : d.length_sq = d.x ^ 2 + d.y ^ 2 + d.z ^ 2 := by
    simp only [Vec3.length_sq, Vec3.dot]
    ring
  rw [he]
  rcases lt_or_eq_of_le (by positivity : (0:ℝ) ≤ d.x ^ 2 + d.y ^ 2 + d.z ^ 2) with h | h
  · exact h
  · exfalso
    apply hd
    obtain ⟨x, y, z⟩ := d
    have hx : x = 0 := by nlinarith [sq_nonneg x, sq_nonneg y, sq_nonneg z]
    have hy : y = 0 := by nlinarith [sq_nonneg x, sq_nonneg y, sq_nonneg z]
    have hz : z = 0 := by nlinarith [sq_nonneg x, sq_nonneg y, sq_nonneg z]
    subst hx
    subst hy
    subst hz
    rfl

/-- Normalising a nonzero real vector yields a vector of length one. -/
theorem normalise_length (d : Vec3 ℝ) (hd : d ≠ ⟨0, 0, 0⟩) :
    (d.normalise Real.sqrt).length Real.sqrt = 1 := by
  have hD : 0 < d.length_sq := length_sq_pos d hd
  have hL : 0 < Real.sqrt d.length_sq := Real.sqrt_pos.mpr hD
  have hsq : (d.normalise Real.sqrt).length_sq =
      ((Real.sqrt d.length_sq)⁻¹) ^ 2 * d.length_sq := by
    simp only [Vec3.normalise, Vec3.length_recip, Vec3.length, Vec3.mulS, Vec3.length_sq,
      Vec3.dot]
    ring
  simp only [Vec3.length, hsq]
  rw [Real.sqrt_mul (sq_nonneg _), Real.sqrt_sq_eq_abs, abs_of_pos (inv_pos.mpr hL)]
  exact inv_mul_cancel₀ hL.ne'

/-- C6: for every pair of SDF nodes a and b and every point p, the distance of
Union(a,b) at p equals the minimum of the distances of a and b at p, exactly. -/
theorem union_dist_is_min (sqrt : K → K) (a b : SdfNode K) (p : Vec3 K) :
    (SdfNode.Union a b).dist sqrt p = min (a.dist sqrt p) (b.dist sqrt p) := rfl

/-- C7: Sphere(r).dist(p) computes the length of p minus r, and for r > 0 the
sign of the distance classifies p against the sphere: positive strictly
outside (squared length above r^2), within 1e-5 of zero on the boundary, and
negative strictly inside. -/
theorem sphere_dist_signs (r : ℝ) (p : Vec3 ℝ) (hr : 0 < r) :
    (SdfNode.Sphere r).dist Real.sqrt p = p.length Real.sqrt - r ∧
    (r ^ 2 < p.length_sq → 0 < (SdfNode.Sphere r).dist Real.sqrt p) ∧
    (p.length_sq = r ^ 2 → |(SdfNode.Sphere r).dist Real.sqrt p| < 1 / 100000) ∧
    (p.length_sq < r ^ 2 → (SdfNode.Sphere r).dist Real.sqrt p < 0) := by
  have hdist : (SdfNode.Sphere r).dist Real.sqrt p = Real.sqrt p.length_sq - r := rfl
  refine ⟨rfl, ?_, ?_, ?_⟩
  · intro h
    rw [hdist, sub_pos]
    exact (Real.lt_sqrt hr.le).mpr h
  · intro h
    rw [hdist, h, Real.sqrt_sq hr.le]
    norm_num
  · intro h
    rw [hdist, sub_neg]
    exact (Real.sqrt_lt' hr).mpr h

/-- Witness for C7 at r = 1 with a point outside, one on the boundary and one
inside the unit sphere. -/
theorem sphere_dist_signs_witness :
    0 < (SdfNode.Sphere (1:ℝ)).dist Real.sqrt ⟨2, 0, 0⟩ ∧
    |(SdfNode.Sphere (1:ℝ)).dist Real.sqrt ⟨1, 0, 0⟩| < 1 / 100000 ∧
    (SdfNode.Sphere (1:ℝ)).dist Real.sqrt ⟨1/2, 0, 0⟩ < 0 := by
  refine ⟨(sphere_dist_signs 1 ⟨2, 0, 0⟩ (by norm_num)).2.1 ?_,
    (sphere_dist_signs 1 ⟨1, 0, 0⟩ (by norm_num)).2.2.1 ?_,
    (sphere_dist_signs 1 ⟨1/2, 0, 0⟩ (by norm_num)).2.2.2 ?_⟩ <;>
  norm_num [Vec3.length_sq, Vec3.dot]

/-- C8: a ray constructed from any nonzero direction has a direction of unit
length (hence within tolerance 1e-5 of unit), and every camera ray the render
pipeline constructs has a direction of unit length, since its direction
always has z-component -2 and is therefore nonzero. -/
theorem ray_dir_unit (origin d : Vec3 ℝ) (hd : d ≠ ⟨0, 0, 0⟩) :
    (Ray.new Real.sqrt origin d).dir.length Real.sqrt = 1 ∧
    |(Ray.new Real.sqrt origin d).dir.length Real.sqrt - 1| < 1 / 100000 ∧
    ∀ (o2 : Vec3 ℝ) (res pos : Vec2 ℝ),
      (pipelineRay Real.sqrt o2 res pos).dir.length Real.sqrt = 1 := by
  have h1 : (Ray.new Real.sqrt origin d).dir.length Real.sqrt = 1 := normalise_length d hd
  refine ⟨h1, by rw [h1]; norm_num, ?_⟩
  intro o2 res pos
  refine normalise_length _ (fun hcon => ?_)
  have hz := congrArg Vec3.z hcon
  norm_num at hz

/-- Witness for C8 at the concrete nonzero direction (3, 4, 0). -/
theorem ray_dir_unit_witness :
    (Ray.new Real.sqrt ⟨0, 0, 0⟩ ⟨3, 4, 0⟩).dir.length Real.sqrt = 1 :=
  (ray_dir_unit ⟨0, 0, 0⟩ ⟨3, 4, 0⟩
    (fun h => by have hx := congrArg Vec3.x h; norm_num at hx)).1

/-- The source scalar loop agrees with the spec-worded iteration at every
fuel and state. -/
theorem traceLoop_eq_specLoop (map : Vec3 K → K) (ray : Ray K) (w : K) :
    ∀ (n : ℕ) (rp rc di t : K),
      f32.traceLoop map ray w n rp rc di t = specLoop map ray w n ⟨rp, rc, di, t⟩ := by
  intro n
  induction n with
  | zero => intro rp rc di t; rfl
  | succ n ih =>
    intro rp rc di t
    simp only [f32.traceLoop, specLoop, specIter, EPSILON, decide_eq_true_eq, gt_iff_lt]
    rw [max_comm]
    split_ifs with h1 h2 h2 <;> first | rfl | exact ih _ _ _ _

/-- C1: the scalar trace implements the enhanced adaptive sphere-tracing
algorithm exactly as the spec words it, for every map, ray and relaxation
factor, with w defaulting to 0.87 when not supplied: starting from rp = 0,
rc = 1, di = 0, t = 0, at most 64 iterations of overstep, fallback,
advancement and relative-tolerance hit test, returning f32::MAX with
hit = false when the budget is exhausted. -/
theorem scalar_trace_implements_spec (map : Vec3 K → K) (ray : Ray K) :
    (∀ w : K, f32.trace map ray (some w) = specScalarTrace map ray w) ∧
      f32.trace map ray none = specScalarTrace map ray (87 / 100) := by
  constructor
  · intro w
    exact traceLoop_eq_specLoop map ray w 64 0 1 0 0
  · exact traceLoop_eq_specLoop map ray (87 / 100) 64 0 1 0 0

/-- C4 counterexample: the float-to-byte conversion saturates instead of
wrapping: 2 becomes 255 (not 510 mod 256) and -1 becomes 0, and no input
above 1 produces anything but 255, no negative input anything but 0, because
a Rust float-to-integer as cast saturates. -/
theorem conv_saturates_not_wraps :
    conv 2 = 255 ∧ conv (-1) = 0 ∧
    ¬ (∃ x : ℚ, 1 < x ∧ conv x ≠ 255) ∧ ¬ (∃ x : ℚ, x < 0 ∧ conv x ≠ 0) := by
  have hgt : ∀ x : ℚ, 1 < x → conv x = 255 := by
    intro x hx
    have h255 : (255:ℚ) < x * 255 := by nlinarith
    rw [conv, if_neg (by push_neg; linarith)]
    have hfl : (255:ℤ) ≤ ⌊x * 255⌋ := by
      apply Int.le_floor.mpr
      push_cast
      linarith
    exact min_eq_left hfl
  have hneg : ∀ x : ℚ, x < 0 → conv x = 0 := by
    intro x hx
    rw [conv, if_pos (by nlinarith)]
  refine ⟨hgt 2 (by norm_num), hneg (-1) (by norm_num), ?_, ?_⟩
  · rintro ⟨x, hx, hne⟩
    exact hne (hgt x hx)
  · rintro ⟨x, hx, hne⟩
    exact hne (hneg x hx)

/-- C4 amended: conv computes the floor of x*255 for x in [0,1], and for
values outside [0,1] it saturates: above 1 the byte is clamped to 255,
below 0 it is clamped to 0 (Rust float-to-integer casts saturate). -/
theorem conv_floor_and_saturate (x : ℚ) (h0 : 0 ≤ x) (h1 : x ≤ 1) :
    conv x = ⌊x * 255⌋ ∧
    (∀ y : ℚ, 1 < y → conv y = 255) ∧ (∀ y : ℚ, y < 0 → conv y = 0) := by
  refine ⟨?_, ?_, ?_⟩
  · rw [conv, if_neg (by push_neg; nlinarith)]
    have hfl : ⌊x * 255⌋ ≤ (255:ℤ) := by
      have h := Int.floor_mono (α := ℚ) (by nlinarith : x * 255 ≤ 255)
      simpa using h
    exact min_eq_right hfl
  · intro y hy
    have h255 : (255:ℚ) < y * 255 := by nlinarith
    rw [conv, if_neg (by push_neg; linarith)]
    have hfl : (255:ℤ) ≤ ⌊y * 255⌋ := by
      apply Int.le_floor.mpr
      push_cast
      linarith
    exact min_eq_left hfl
  · intro y hy
    rw [conv, if_pos (by nlinarith)]

/-- Witness for C4 amended at x = 1/2, y = 2 and y = -3. -/
theorem conv_floor_and_saturate_witness :
    conv (1/2) = 127 ∧ conv 2 = 255 ∧ conv (-3) = 0 := by
  obtain ⟨ha, hb, hc⟩ := conv_floor_and_saturate (1/2) (by norm_num) (by norm_num)
  refine ⟨?_, hb 2 (by norm_num), hc (-3) (by norm_num)⟩
  rw [ha]
  norm_num

/-- A concrete ray along the positive z axis, over the rationals. -/
def unitZRay : Ray ℚ := ⟨⟨0, 0, 0⟩, ⟨0, 0, 1⟩⟩

/-- Eight identical copies of unitZRay as one 8-lane ray. -/
def unitZRay8 : Ray8 ℚ :=
  ⟨⟨fun _ => 0, fun _ => 0, fun _ => 0⟩, ⟨fun _ => 0, fun _ => 0, fun _ => 1⟩⟩

/-- The scalar loop either hits or returns the sentinel result, at every fuel
and state. -/
theorem traceLoop_hit_or_sentinel (map : Vec3 K → K) (ray : Ray K) (w : K) :
    ∀ (n : ℕ) (rp rc di t : K),
      (f32.traceLoop map ray w n rp rc di t).hit = true ∨
        f32.traceLoop map ray w n rp rc di t = ⟨MAX_DIST, false⟩ := by
  intro n
  induction n with
  | zero => intro rp rc di t; exact Or.inr rfl
  | succ n ih =>
    intro rp rc di t
    simp only [f32.traceLoop]
    split_ifs <;> first | exact Or.inl rfl | exact ih _ _ _ _

/-- C2 amended: a scalar ray that does not hit within the 64-step budget
reports the sentinel distance f32::MAX.  The vectorized variant lacks this
property: a lane whose hit mask is false when the budget is exhausted keeps
its accumulated travel distance (see the counterexample). -/
theorem miss_distance_sentinel (map : Vec3 K → K) (ray : Ray K) (w : Option K)
    (hmiss : (f32.trace map ray w).hit = false) :
    (f32.trace map ray w).distance = MAX_DIST := by
  have he : f32.trace map ray w = f32.traceLoop map ray (w.getD (87/100)) 64 0 1 0 0 := rfl
  rcases traceLoop_hit_or_sentinel map ray (w.getD (87/100)) 64 0 1 0 0 with h | h
  · rw [he] at hmiss
    rw [hmiss] at h
    exact absurd h (by simp)
  · rw [he, h]

set_option maxRecDepth 100000 in
/-- Witness for C2 amended: the constant map 1000 misses in the scalar trace
and the reported distance is the sentinel. -/
theorem miss_distance_sentinel_witness :
    (f32.trace (K := ℚ) (fun _ => 1000) unitZRay none).distance = MAX_DIST :=
  miss_distance_sentinel (fun _ => 1000) unitZRay none
    (by norm_num [f32.trace, f32.traceLoop, EPSILON, MAX_STEPS])

set_option maxRecDepth 100000 in
set_option maxHeartbeats 2000000 in
/-- C2 counterexample: against the constant distance function 1000 no lane of
the vectorized trace hits within the budget, and lane 0 reports the
accumulated travel distance 64000 rather than the sentinel f32::MAX. -/
theorem vector_miss_distance_not_sentinel :
    (f32x8.trace (K := ℚ) (fun _ _ => 1000) unitZRay8 none).hit 0 = false ∧
    (f32x8.trace (K := ℚ) (fun _ _ => 1000) unitZRay8 none).distance 0 = 64000 ∧
    (64000 : ℚ) ≠ MAX_DIST := by
  refine ⟨?_, ?_, by norm_num [MAX_DIST]⟩ <;>
  norm_num [f32x8.trace, f32x8.traceLoop, f32x8.hitMask, f32x8.finishedMask, f32x8.stepT,
    Mask8.all, Mask8.select, Ray8.atT, unitZRay8, EPSILON, MAX_DIST, MAX_STEPS]

/-- C9: in the vectorized trace, once a lane is finished (it hit this
step or its accumulated distance exceeded the maximum), its accumulated
distance t is frozen: the per-lane mask select leaves it unchanged in the
next step, it stays finished, and every later iteration reports that frozen
distance; and the loop recurses exactly when some lane is unfinished and
fuel remains, exiting when all 8 lanes are finished or the budget is
exhausted.  The map is assumed to act lane-wise (lane i of the output
depends only on lane i of the point), as every widened scene map does. -/
theorem vector_lane_freeze (map : Vec3x8 K → Lanes K) (ray : Ray8 K)
    (hlane : ∀ (u v : Vec3x8 K) (i : Fin 8),
      u.x i = v.x i → u.y i = v.y i → u.z i = v.z i → map u i = map v i) :
    (∀ (t : Lanes K) (i : Fin 8), f32x8.finishedMask map ray t i = true →
      f32x8.stepT map ray t i = t i) ∧
    (∀ (t : Lanes K) (i : Fin 8), f32x8.finishedMask map ray t i = true →
      f32x8.finishedMask map ray (f32x8.stepT map ray t) i = true) ∧
    (∀ (n : ℕ) (t : Lanes K) (hit : Mask8) (i : Fin 8),
      f32x8.finishedMask map ray t i = true →
      (f32x8.traceLoop map ray n t hit).distance i = t i) ∧
    (∀ (n : ℕ) (t : Lanes K) (hit : Mask8),
      Mask8.all (f32x8.finishedMask map ray t) = false →
      f32x8.traceLoop map ray (n + 1) t hit =
        f32x8.traceLoop map ray n (f32x8.stepT map ray t) (f32x8.hitMask map ray t)) ∧
    (∀ (n : ℕ) (t : Lanes K) (hit : Mask8),
      Mask8.all (f32x8.finishedMask map ray t) = true →
      f32x8.traceLoop map ray (n + 1) t hit = ⟨t, f32x8.hitMask map ray t⟩) := by
  have hstep : ∀ (t : Lanes K) (i : Fin 8), f32x8.finishedMask map ray t i = true →
      f32x8.stepT map ray t i = t i := by
    intro t i h
    simp [f32x8.stepT, Mask8.select, h]
  have hsame : ∀ (t : Lanes K) (i : Fin 8), f32x8.finishedMask map ray t i = true →
      map (ray.atT (f32x8.stepT map ray t)) i = map (ray.atT t) i := by
    intro t i h
    apply hlane <;> simp [Ray8.atT, hstep t i h]
  have hfin : ∀ (t : Lanes K) (i : Fin 8), f32x8.finishedMask map ray t i = true →
      f32x8.finishedMask map ray (f32x8.stepT map ray t) i = true := by
    intro t i h
    have hh := h
    simp only [f32x8.finishedMask, f32x8.hitMask] at hh ⊢
    rw [hsame t i h, hstep t i h]
    exact hh
  have hfreeze : ∀ (n : ℕ) (t : Lanes K) (hit : Mask8) (i : Fin 8),
      f32x8.finishedMask map ray t i = true →
      (f32x8.traceLoop map ray n t hit).distance i = t i := by
    intro n
    induction n with
    | zero => intro t hit i h; rfl
    | succ n ih =>
      intro t hit i h
      rw [traceLoop8_succ]
      split_ifs with hall
      · rfl
      · rw [ih _ _ i (hfin t i h), hstep t i h]
  refine ⟨hstep, hfin, hfreeze, ?_, ?_⟩
  · intro n t hit hall
    rw [traceLoop8_succ, if_neg (by rw [hall]; exact Bool.false_ne_true)]
  · intro n t hit hall
    rw [traceLoop8_succ, if_pos hall]

/-- Witness for C9: a lane whose accumulated distance 10^7 already meets the
relative tolerance for the constant map 1000 keeps that distance. -/
theorem vector_lane_freeze_witness :
    (f32x8.traceLoop (K := ℚ) (fun _ _ => 1000) unitZRay8 5
      (fun _ => 10000000) (fun _ => false)).distance 0 = 10000000 :=
  (vector_lane_freeze (K := ℚ) (fun _ _ => 1000) unitZRay8
    (fun _ _ _ _ _ _ => rfl)).2.2.1 5 (fun _ => 10000000) (fun _ => false) 0 (by
      norm_num [f32x8.finishedMask, f32x8.hitMask, Ray8.atT, unitZRay8, EPSILON, MAX_DIST])

/-- A probe distance function over the rationals, piecewise in z only; any
closure is a legal scene map for the tracing engines. -/
def zMap (p : Vec3 ℚ) : ℚ :=
  if p.z < 1/2 then 10 else if p.z < 6/5 then 1/2000 else if p.z < 2 then 0
  else if p.z < 11 then 1/200 else 5

/-- The 8-lane widening of zMap, applied lane-wise. -/
def zMap8 (v : Vec3x8 ℚ) : Lanes ℚ := fun i => zMap ⟨v.x i, v.y i, v.z i⟩

/-- All 8 lanes of a lane group hold the same value. -/
def Lanes.Uniform (t : Lanes K) : Prop := ∀ i j : Fin 8, t i = t j

/-- All 8 lanes of an 8-lane vector hold the same 3D vector. -/
def Vec3x8.Uniform (v : Vec3x8 K) : Prop :=
  Lanes.Uniform v.x ∧ Lanes.Uniform v.y ∧ Lanes.Uniform v.z

/-- Against the constant-zero map the vectorized loop never moves: every
step adds the zero step distance, so the accumulated distances stay zero and
no lane ever hits. -/
theorem zero_map_loop8 : ∀ (n : ℕ) (hit : Mask8),
    f32x8.traceLoop (K := ℚ) (fun _ _ => 0) unitZRay8 (n + 1) (fun _ => 0) hit =
      ⟨fun _ => 0, f32x8.hitMask (fun _ _ => 0) unitZRay8 (fun _ => 0)⟩ := by
  have hc : Mask8.all (f32x8.finishedMask (K := ℚ) (fun _ _ => 0) unitZRay8 (fun _ => 0)) = false := by
    norm_num [Mask8.all, f32x8.finishedMask, f32x8.hitMask, Ray8.atT, unitZRay8,
      EPSILON, MAX_DIST]
  have hst : f32x8.stepT (K := ℚ) (fun _ _ => 0) unitZRay8 (fun _ => 0) = fun _ => 0 := by
    funext i
    norm_num [f32x8.stepT, f32x8.finishedMask, f32x8.hitMask, Mask8.select, Ray8.atT,
      unitZRay8, EPSILON, MAX_DIST]
  intro n
  induction n with
  | zero =>
    intro hit
    rw [traceLoop8_succ, if_neg (by rw [hc]; exact Bool.false_ne_true), hst]
    rfl
  | succ n ih =>
    intro hit
    rw [traceLoop8_succ, if_neg (by rw [hc]; exact Bool.false_ne_true), hst]
    exact ih _

/-- C5 amended: tracing 8 identical rays (uniform lanes) against a
lane-uniform map, the vectorized trace produces identical distances and hit
flags in all 8 lanes; scalar/vector agreement beyond this fails (see the
counterexample). -/
theorem vector_lanes_uniform (map : Vec3x8 K → Lanes K) (ray : Ray8 K)
    (hmap : ∀ v : Vec3x8 K, v.Uniform → Lanes.Uniform (map v))
    (hor : ray.origin.Uniform) (hdir : ray.dir.Uniform) :
    ∀ i j : Fin 8,
      (f32x8.trace map ray none).distance i = (f32x8.trace map ray none).distance j ∧
      (f32x8.trace map ray none).hit i = (f32x8.trace map ray none).hit j := by
  have hat : ∀ t : Lanes K, Lanes.Uniform t → (ray.atT t).Uniform := by
    intro t ht
    refine ⟨fun i j => ?_, fun i j => ?_, fun i j => ?_⟩
    · simp only [Ray8.atT]
      rw [ht i j, hdir.1 i j, hor.1 i j]
    · simp only [Ray8.atT]
      rw [ht i j, hdir.2.1 i j, hor.2.1 i j]
    · simp only [Ray8.atT]
      rw [ht i j, hdir.2.2 i j, hor.2.2 i j]
  have hmask : ∀ t : Lanes K, Lanes.Uniform t →
      ∀ i j : Fin 8, f32x8.hitMask map ray t i = f32x8.hitMask map ray t j := by
    intro t ht i j
    simp only [f32x8.hitMask]
    exact decide_eq_decide.mpr (by rw [hmap _ (hat t ht) i j, ht i j])
  have hfinu : ∀ t : Lanes K, Lanes.Uniform t →
      ∀ i j : Fin 8, f32x8.finishedMask map ray t i = f32x8.finishedMask map ray t j := by
    intro t ht i j
    simp only [f32x8.finishedMask]
    rw [hmask t ht i j, decide_eq_decide.mpr (by rw [ht i j] : t i > MAX_DIST ↔ t j > MAX_DIST)]
  have hstepu : ∀ t : Lanes K, Lanes.Uniform t → Lanes.Uniform (f32x8.stepT map ray t) := by
    intro t ht i j
    simp only [f32x8.stepT, Mask8.select]
    rw [hfinu t ht i j, ht i j, hmap _ (hat t ht) i j]
  have main : ∀ (n : ℕ) (t : Lanes K) (hit : Mask8), Lanes.Uniform t →
      (∀ i j : Fin 8, hit i = hit j) →
      ∀ i j : Fin 8,
        (f32x8.traceLoop map ray n t hit).distance i =
          (f32x8.traceLoop map ray n t hit).distance j ∧
        (f32x8.traceLoop map ray n t hit).hit i = (f32x8.traceLoop map ray n t hit).hit j := by
    intro n
    induction n with
    | zero => intro t hit ht hh i j; exact ⟨ht i j, hh i j⟩
    | succ n ih =>
      intro t hit ht hh i j
      rw [traceLoop8_succ]
      split_ifs with hall
      · exact ⟨ht i j, hmask t ht i j⟩
      · exact ih (f32x8.stepT map ray t) (f32x8.hitMask map ray t) (hstepu t ht) (hmask t ht) i j
  exact main 64 (fun _ => 0) (fun _ => false) (fun _ _ => rfl) (fun _ _ => rfl)

/-- Witness for C5 amended: the constant map 1000 with eight identical rays
gives identical results in lanes 0 and 1. -/
theorem vector_lanes_uniform_witness :
    (f32x8.trace (K := ℚ) (fun _ _ => 1000) unitZRay8 none).distance 0 =
      (f32x8.trace (K := ℚ) (fun _ _ => 1000) unitZRay8 none).distance 1 ∧
    (f32x8.trace (K := ℚ) (fun _ _ => 1000) unitZRay8 none).hit 0 =
      (f32x8.trace (K := ℚ) (fun _ _ => 1000) unitZRay8 none).hit 1 :=
  vector_lanes_uniform (fun _ _ => 1000) unitZRay8 (fun _ _ _ _ => rfl)
    ⟨fun _ _ => rfl, fun _ _ => rfl, fun _ _ => rfl⟩
    ⟨fun _ _ => rfl, fun _ _ => rfl, fun _ _ => rfl⟩ 0 1

set_option maxRecDepth 100000 in
set_option maxHeartbeats 4000000 in
/-- C5 counterexample: with eight identical rays and the same scene, the
scalar and vectorized traces disagree: for the constant-zero map the scalar
trace hits at distance 1 while every vectorized lane misses at distance 0;
and for the probe map zMap both hit but at distances 1 and 10, which differ
by more than the 1e-3 tolerance. -/
theorem scalar_vector_disagree :
    (f32.trace (K := ℚ) (fun _ => 0) unitZRay none).hit = true ∧
    (f32.trace (K := ℚ) (fun _ => 0) unitZRay none).distance = 1 ∧
    (f32x8.trace (K := ℚ) (fun _ _ => 0) unitZRay8 none).hit 0 = false ∧
    (f32x8.trace (K := ℚ) (fun _ _ => 0) unitZRay8 none).distance 0 = 0 ∧
    (f32.trace zMap unitZRay none).hit = true ∧
    (f32.trace zMap unitZRay none).distance = 1 ∧
    (f32x8.trace zMap8 unitZRay8 none).hit 0 = true ∧
    (f32x8.trace zMap8 unitZRay8 none).distance 0 = 10 ∧
    ¬ (|(1 : ℚ) - 10| < 1 / 1000) := by
  have hz8 : f32x8.trace (K := ℚ) (fun _ _ => 0) unitZRay8 none =
      ⟨fun _ => 0, f32x8.hitMask (fun _ _ => 0) unitZRay8 (fun _ => 0)⟩ := by
    show f32x8.traceLoop (K := ℚ) (fun _ _ => 0) unitZRay8 (63 + 1) (fun _ => 0)
      (fun _ => false) = _
    exact zero_map_loop8 63 _
  have hsz : f32.trace (K := ℚ) (fun _ => 0) unitZRay none = ⟨1, true⟩ := by
    norm_num [f32.trace, f32.traceLoop, Ray.atT, Vec3.mul_add, Vec3.splat, unitZRay,
      EPSILON, MAX_STEPS, Trace.mk.injEq]
  have hsm : f32.trace zMap unitZRay none = ⟨1, true⟩ := by
    norm_num [f32.trace, f32.traceLoop, Ray.atT, Vec3.mul_add, Vec3.splat, unitZRay,
      zMap, EPSILON, MAX_STEPS, Trace.mk.injEq]
  have hm8 : f32x8.trace zMap8 unitZRay8 none =
      ⟨fun _ => 10, f32x8.hitMask zMap8 unitZRay8 (fun _ => 10)⟩ := by
    have ht1 : f32x8.stepT zMap8 unitZRay8 (fun _ => 0) = fun _ => 10 := by
      funext i
      norm_num [f32x8.stepT, f32x8.finishedMask, f32x8.hitMask, Mask8.select, Ray8.atT,
        unitZRay8, zMap8, zMap, EPSILON, MAX_DIST]
    have hc1 : Mask8.all (f32x8.finishedMask zMap8 unitZRay8 (fun _ => 0)) = false := by
      norm_num [Mask8.all, f32x8.finishedMask, f32x8.hitMask, Ray8.atT, unitZRay8,
        zMap8, zMap, EPSILON, MAX_DIST]
    have hc2 : Mask8.all (f32x8.finishedMask zMap8 unitZRay8 (fun _ => 10)) = true := by
      norm_num [Mask8.all, f32x8.finishedMask, f32x8.hitMask, Ray8.atT, unitZRay8,
        zMap8, zMap, EPSILON, MAX_DIST]
    show f32x8.traceLoop zMap8 unitZRay8 (63 + 1) (fun _ => 0) (fun _ => false) = _
    rw [traceLoop8_succ, hc1, if_neg (by exact Bool.false_ne_true), ht1]
    show f32x8.traceLoop zMap8 unitZRay8 (62 + 1) (fun _ => 10) _ = _
    rw [traceLoop8_succ, hc2, if_pos rfl]
  refine ⟨by rw [hsz], by rw [hsz], ?_, by rw [hz8], by rw [hsm], by rw [hsm], ?_, by rw [hm8], by norm_num⟩
  · rw [hz8]
    norm_num [f32x8.hitMask, Ray8.atT, unitZRay8, EPSILON]
  · rw [hm8]
    norm_num [f32x8.hitMask, Ray8.atT, unitZRay8, zMap8, zMap, EPSILON]

/-- Lengths multiply: flattening a list of N-element arrays yields
len * N elements. -/
theorem flatten_length {T : Type} (N : ℕ) (v : List (Fin N → T)) :
    (flatten N v).length = v.length * N := by
  induction v with
  | nil => simp [flatten]
  | cons a v ih =>
    show ((List.finRange N).map a ++ flatten N v).length = _
    simp only [List.length_append, List.length_map, List.length_finRange, ih, List.length_cons]
    ring

/-- Indexing the flattened list: element i is element i mod N of array
i div N. -/
theorem flatten_getElem {T : Type} (N : ℕ) (hN : 0 < N) :
    ∀ (v : List (Fin N → T)) (i : ℕ) (hi : i < (flatten N v).length) (hq : i / N < v.length),
      (flatten N v).get ⟨i, hi⟩ = v.get ⟨i / N, hq⟩ ⟨i % N, Nat.mod_lt i hN⟩ := by
  intro v
  induction v with
  | nil =>
    intro i hi hq
    exact absurd hq (Nat.not_lt_zero _)
  | cons a v ih =>
    intro i hi hq
    have hi2 : i < ((List.finRange N).map a ++ flatten N v).length := hi
    by_cases hlt : i < N
    · have hdiv : i / N = 0 := Nat.div_eq_of_lt hlt
      have hmod : i % N = i := Nat.mod_eq_of_lt hlt
      have hl : i < ((List.finRange N).map a).length := by
        simpa using hlt
      show ((List.finRange N).map a ++ flatten N v).get ⟨i, hi2⟩ = _
      rw [List.get_eq_getElem, List.getElem_append_left hl, List.getElem_map,
        List.getElem_finRange]
      have hfin0 : (⟨i / N, hq⟩ : Fin (v.length + 1)) = ⟨0, Nat.succ_pos _⟩ := by
        simp [hdiv]
      rw [hfin0]
      show a _ = a ⟨i % N, _⟩
      congr 1
      apply Fin.ext
      simp [hmod]
    · push_neg at hlt
      have hL2 : (flatten N v).length = v.length * N := flatten_length N v
      have hlen : ((List.finRange N).map a).length ≤ i := by simpa using hlt
      have hsub : i - N < (flatten N v).length := by
        have hL1 : (flatten N (a :: v)).length = (v.length + 1) * N := by
          rw [flatten_length]
          simp
        rw [hL2]
        rw [hL1] at hi
        have : (v.length + 1) * N = v.length * N + N := by ring
        omega
      have hdiv : i / N = (i - N) / N + 1 := Nat.div_eq_sub_div hN hlt
      have hmod : i % N = (i - N) % N := Nat.mod_eq_sub_mod hlt
      have hq2 : (i - N) / N < v.length := by
        simp only [List.length_cons] at hq
        omega
      show ((List.finRange N).map a ++ flatten N v).get ⟨i, hi2⟩ = _
      have hrec := ih (i - N) hsub hq2
      have e1 : ((List.finRange N).map a ++ flatten N v).get ⟨i, hi2⟩ =
          (flatten N v).get ⟨i - N, hsub⟩ := by
        rw [List.get_eq_getElem, List.getElem_append_right hlen, List.get_eq_getElem]
        congr 1
        simp
      rw [e1, hrec]
      have hfin : (⟨i / N, hq⟩ : Fin (v.length + 1)) = ⟨(i - N) / N + 1, by omega⟩ := by
        apply Fin.ext
        simp [hdiv]
      rw [hfin, List.get_cons_succ]
      refine congrArg (v.get ⟨(i - N) / N, hq2⟩) (Fin.ext ?_)
      simp [hmod]

/-- Byte 3k + c of the assembled image is channel c of pixel k. -/
theorem bytes_get (w : List (Vec3 ℚ)) (k c : ℕ) (hk : k < w.length) (hc : c < 3)
    (h : 3 * k + c < (bytes w).length) :
    (bytes w).get ⟨3 * k + c, h⟩ =
      ![conv (w.get ⟨k, hk⟩).x, conv (w.get ⟨k, hk⟩).y, conv (w.get ⟨k, hk⟩).z] ⟨c, hc⟩ := by
  have hlen : (w.map (fun p => ![conv p.x, conv p.y, conv p.z])).length = w.length := by simp
  have hb : (bytes w).length =
      (w.map (fun p => ![conv p.x, conv p.y, conv p.z])).length * 3 := flatten_length 3 _
  have hq : (3 * k + c) / 3 < (w.map (fun p => ![conv p.x, conv p.y, conv p.z])).length := by
    refine (Nat.div_lt_iff_lt_mul (by norm_num)).mpr ?_
    rw [hb] at h
    exact h
  have e := flatten_getElem 3 (by norm_num) (w.map (fun p => ![conv p.x, conv p.y, conv p.z]))
    (3 * k + c) h hq
  refine e.trans ?_
  have hmod : (3 * k + c) % 3 = c := by omega
  have h1 : (w.map (fun p => ![conv p.x, conv p.y, conv p.z])).get ⟨(3 * k + c) / 3, hq⟩ =
      (fun p => ![conv p.x, conv p.y, conv p.z]) (w.get ⟨k, hk⟩) := by
    have hdiv : (3 * k + c) / 3 = k := by omega
    have hfin : (⟨(3 * k + c) / 3, hq⟩ :
        Fin ((w.map (fun p => ![conv p.x, conv p.y, conv p.z])).length)) =
          ⟨k, by rw [hlen]; exact hk⟩ := Fin.ext hdiv
    rw [hfin, List.get_eq_getElem, List.getElem_map, List.get_eq_getElem]
  rw [h1]
  exact congrArg _ (Fin.ext (by simpa using hmod))

/-- C10: flatten returns a vector of length len * N whose i-th element is
element i mod N of array i div N, the arrays concatenated in order; in
particular the image byte assembly places the three converted channels of
pixel k at byte offsets 3k, 3k+1 and 3k+2, preserving pixel order. -/
theorem flatten_preserves_order {T : Type} (N : ℕ) (hN : 0 < N)
    (v : List (Fin N → T)) (i : ℕ) (hi : i < (flatten N v).length) (hq : i / N < v.length) :
    (flatten N v).length = v.length * N ∧
    (flatten N v).get ⟨i, hi⟩ = v.get ⟨i / N, hq⟩ ⟨i % N, Nat.mod_lt i hN⟩ ∧
    ∀ (w : List (Vec3 ℚ)) (k : ℕ) (hk : k < w.length)
      (h0 : 3 * k < (bytes w).length) (h1 : 3 * k + 1 < (bytes w).length)
      (h2 : 3 * k + 2 < (bytes w).length),
      (bytes w).get ⟨3 * k, h0⟩ = conv (w.get ⟨k, hk⟩).x ∧
      (bytes w).get ⟨3 * k + 1, h1⟩ = conv (w.get ⟨k, hk⟩).y ∧
      (bytes w).get ⟨3 * k + 2, h2⟩ = conv (w.get ⟨k, hk⟩).z := by
  refine ⟨flatten_length N v, flatten_getElem N hN v i hi hq, ?_⟩
  intro w k hk h0 h1 h2
  refine ⟨?_, ?_, ?_⟩
  · exact bytes_get w k 0 hk (by norm_num) h0
  · exact bytes_get w k 1 hk (by norm_num) h1
  · exact bytes_get w k 2 hk (by norm_num) h2

/-- Witness for C10 at N = 2 with two concrete arrays and index 3. -/
theorem flatten_preserves_order_witness :
    (flatten 2 [![(10:ℕ), 20], ![30, 40]]).get ⟨3, by decide⟩ = 40 := by
  have h := (flatten_preserves_order 2 (by decide) [![(10:ℕ), 20], ![30, 40]] 3
    (by decide) (by decide)).2.1
  exact h.trans (by decide)

end Erm
